import Mathlib

/-!
Shallow embedding of the tool-contact physics core of
`artistry-simulated-realism` (TypeScript / three.js), and proofs of the
spec's claims about it.

JavaScript numbers are idealised as real numbers (`ℝ`).  Where the source
can produce the IEEE special values `Infinity` / `NaN` (the shape-ratio
division in `getContactShape`), the embedding tracks them explicitly with
the `JSNum` type, mirroring the IEEE rules `x/0 = ±Infinity` for `x ≠ 0`,
`0/0 = NaN`, `sqrt(NaN) = NaN`, and `NaN` comparing false.  Calls to the
hidden global `Math.random()` are modelled by an explicit stream of draws
(`rng : ℕ → ℝ`, or a single draw argument), so that the dependence of each
operation on the global generator is visible in its type.
-/

open scoped Classical

/-- `THREE.Vector3` with real components. -/
structure Vec3 where
  x : ℝ
  y : ℝ
  z : ℝ

/-- `THREE.Vector2` with real components (`.y` holds the world-z of a
drawing coordinate, exactly as the source stores it). -/
structure Vec2 where
  x : ℝ
  y : ℝ

/-- `THREE.Matrix4`: the 16 entries of `matrix.elements`, in the
column-major order three.js stores them. -/
structure Mat4 where
  e0 : ℝ
  e1 : ℝ
  e2 : ℝ
  e3 : ℝ
  e4 : ℝ
  e5 : ℝ
  e6 : ℝ
  e7 : ℝ
  e8 : ℝ
  e9 : ℝ
  e10 : ℝ
  e11 : ℝ
  e12 : ℝ
  e13 : ℝ
  e14 : ℝ
  e15 : ℝ

/-- `THREE.Vector3.applyMatrix4`: full projective transform with the
perspective divide `w`, exactly as three.js computes it. -/
noncomputable def Vec3.applyMatrix4 (v : Vec3) (m : Mat4) : Vec3 :=
  let w := 1 / (m.e3 * v.x + m.e7 * v.y + m.e11 * v.z + m.e15)
  { x := (m.e0 * v.x + m.e4 * v.y + m.e8 * v.z + m.e12) * w
    y := (m.e1 * v.x + m.e5 * v.y + m.e9 * v.z + m.e13) * w
    z := (m.e2 * v.x + m.e6 * v.y + m.e10 * v.z + m.e14) * w }

/-- `THREE.Vector3.distanceTo`. -/
noncomputable def Vec3.distanceTo (a b : Vec3) : ℝ :=
  Real.sqrt ((a.x - b.x) ^ 2 + (a.y - b.y) ^ 2 + (a.z - b.z) ^ 2)

/-- The identity matrix (a fresh `new THREE.Matrix4()`). -/
def Mat4.identity : Mat4 :=
  ⟨1, 0, 0, 0, 0, 1, 0, 0, 0, 0, 1, 0, 0, 0, 0, 1⟩

/-- `LeadVertex` from `LeadTipPhysics.tsx`. -/
structure LeadVertex where
  position : Vec3
  originalPosition : Vec3
  wear : ℝ
  hardness : ℝ

/-- `ContactPoint` from `LeadTipPhysics.tsx`. -/
structure ContactPoint where
  position : Vec3
  normal : Vec3
  area : ℝ
  pressure : ℝ

namespace LeadTipGeometry

/-- `LeadTipGeometry.generateInitialGeometry`: one apex vertex, one base
ring of `segments` vertices, and 3 intermediate rings of `segments`
vertices each, in the source's push order. -/
noncomputable def generateInitialGeometry (radius height : ℝ) (segments : ℕ) :
    List LeadVertex :=
  let apex : LeadVertex :=
    { position := ⟨0, 0, 0⟩, originalPosition := ⟨0, 0, 0⟩
      wear := 0, hardness := 0.7 }
  let base : List LeadVertex := (List.range segments).map fun i =>
    let angle := ((i : ℝ) / (segments : ℝ)) * Real.pi * 2
    let x := Real.cos angle * radius
    let z := Real.sin angle * radius
    { position := ⟨x, height, z⟩, originalPosition := ⟨x, height, z⟩
      wear := 0, hardness := 0.9 }
  let rings : ℕ := 3
  let ringVerts : List LeadVertex :=
    ((List.range rings).map fun r =>
      let ring : ℕ := r + 1
      let ringHeight := (height * (ring : ℝ)) / ((rings : ℝ) + 1)
      let ringRadius := radius * (1 - (ring : ℝ) / ((rings : ℝ) + 1))
      (List.range segments).map fun i =>
        let angle := ((i : ℝ) / (segments : ℝ)) * Real.pi * 2
        let x := Real.cos angle * ringRadius
        let z := Real.sin angle * ringRadius
        { position := ⟨x, ringHeight, z⟩, originalPosition := ⟨x, ringHeight, z⟩
          wear := 0, hardness := 0.8 }).flatten
  apex :: (base ++ ringVerts)

/-- The contact produced for a penetrating vertex in
`checkCollisionWithSurface` (its body, factored out for the theorems). -/
noncomputable def contactFor (surfaceY : ℝ) (m : Mat4) (v : LeadVertex) :
    ContactPoint :=
  let worldPos := v.position.applyMatrix4 m
  { position := ⟨worldPos.x, surfaceY, worldPos.z⟩
    normal := ⟨0, 1, 0⟩
    area := Real.pi * 0.001 * 0.001
    pressure := max 0 ((surfaceY - worldPos.y) * 100) }

/-- `LeadTipGeometry.checkCollisionWithSurface`: every vertex is
transformed to world space; those whose world-space y lies at or below
`surfaceY + 0.001` yield one contact each, in vertex order. -/
noncomputable def checkCollisionWithSurface (vertices : List LeadVertex)
    (surfaceY : ℝ) (m : Mat4) : List ContactPoint :=
  vertices.filterMap fun v =>
    if (v.position.applyMatrix4 m).y ≤ surfaceY + 0.001 then
      some (contactFor surfaceY m v)
    else none

/-- One pass of `applyWear` for a single contact over the vertex list.
The source first gathers the affected vertices (those within `0.008` of
the contact, measured on their pre-update world positions) and then
updates exactly those, so one pass is a map in which each vertex's new
state depends only on its own previous state; `k` indexes the
`Math.random()` stream, and each affected vertex consumes two draws (the
x and z lateral-jitter components, in that order). -/
noncomputable def applyWearContact (m : Mat4) (wearRate : ℝ) (rng : ℕ → ℝ)
    (c : ContactPoint) : List LeadVertex → ℕ → List LeadVertex × ℕ
  | [], k => ([], k)
  | v :: rest, k =>
    let worldPos := v.position.applyMatrix4 m
    let distance := worldPos.distanceTo c.position
    if distance < 0.008 then
      let influence := 1 - distance / 0.008
      let pressureFactor := c.pressure ^ (1.2 : ℝ)
      let hardnessFactor := 1 / v.hardness ^ (0.8 : ℝ)
      let wearAmount := pressureFactor * wearRate * hardnessFactor * influence * 0.1
      let newWear := min 1 (v.wear + wearAmount)
      let lateralWear : Vec3 :=
        ⟨(rng k - 0.5) * 0.001 * newWear, 0, (rng (k + 1) - 0.5) * 0.001 * newWear⟩
      let wearDirection : Vec3 := ⟨-c.normal.x, -c.normal.y, -c.normal.z⟩
      let totalWearOffset : Vec3 :=
        ⟨wearDirection.x * (newWear * 0.015) + lateralWear.x,
         wearDirection.y * (newWear * 0.015) + lateralWear.y,
         wearDirection.z * (newWear * 0.015) + lateralWear.z⟩
      let pos0 : Vec3 :=
        ⟨v.originalPosition.x + totalWearOffset.x,
         v.originalPosition.y + totalWearOffset.y,
         v.originalPosition.z + totalWearOffset.z⟩
      let pos1 : Vec3 :=
        if 0.3 < newWear then
          ⟨pos0.x, pos0.y + (newWear - 0.3) * 0.02, pos0.z⟩
        else pos0
      let next := applyWearContact m wearRate rng c rest (k + 2)
      ({ v with wear := newWear, position := pos1 } :: next.1, next.2)
    else
      let next := applyWearContact m wearRate rng c rest k
      (v :: next.1, next.2)

/-- `LeadTipGeometry.applyWear`: for each contact in order, wear and
deform the vertices within the wear radius.  (The trailing
`updateGeometry()` call rebuilds the render mesh and touches no vertex,
so it has no effect on this state.) -/
noncomputable def applyWear (contacts : List ContactPoint) (m : Mat4)
    (wearRate : ℝ) (rng : ℕ → ℝ) (vs : List LeadVertex) : List LeadVertex :=
  (contacts.foldl (fun s c => applyWearContact m wearRate rng c s.1 s.2) (vs, 0)).1

/-- `shape` field values of a contact footprint. -/
inductive ShapeKind where
  | point : ShapeKind
  | line : ShapeKind
  | oval : ShapeKind
deriving DecidableEq

/-- The record `getContactShape` returns. -/
structure ContactFootprint where
  center : Vec3
  area : ℝ
  shape : ShapeKind
  orientation : ℝ

/-- A JavaScript number that may be one of the IEEE special values the
shape-ratio computation can produce. -/
inductive JSNum where
  | fin (x : ℝ) : JSNum
  | posInf : JSNum
  | negInf : JSNum
  | nan : JSNum

/-- IEEE division as JavaScript performs it on finite operands:
`x / 0` is `±Infinity` for `x ≠ 0` and `NaN` for `x = 0`. -/
noncomputable def jsDiv (a b : ℝ) : JSNum :=
  if b = 0 then
    if a = 0 then .nan else if 0 < a then .posInf else .negInf
  else .fin (a / b)

/-- `Math.sqrt` on a possibly special value: `sqrt(Infinity) = Infinity`,
`sqrt` of a negative number or of `NaN` is `NaN`. -/
noncomputable def jsSqrt : JSNum → JSNum
  | .fin x => if 0 ≤ x then .fin (Real.sqrt x) else .nan
  | .posInf => .posInf
  | .negInf => .nan
  | .nan => .nan

/-- `>` against a finite constant, with `NaN` comparing false. -/
def JSNum.gtConst : JSNum → ℝ → Prop
  | .fin x, c => c < x
  | .posInf, _ => True
  | .negInf, _ => False
  | .nan, _ => False

/-- `<` against a finite constant, with `NaN` comparing false. -/
def JSNum.ltConst : JSNum → ℝ → Prop
  | .fin x, c => x < c
  | .posInf, _ => False
  | .negInf, _ => True
  | .nan, _ => False

/-- `Math.atan2` on finite real arguments (JavaScript's convention
`atan2(0, 0) = 0`; rationals have no negative zero). -/
noncomputable def jsAtan2 (y x : ℝ) : ℝ :=
  if x = 0 ∧ y = 0 then 0
  else if 0 < x then Real.arctan (y / x)
  else if x < 0 then
    if 0 ≤ y then Real.arctan (y / x) + Real.pi
    else Real.arctan (y / x) - Real.pi
  else
    if 0 < y then Real.pi / 2 else -(Real.pi / 2)

/-- Second moment `sumX2` of the contact positions about their centroid's
x coordinate. -/
noncomputable def sumX2 (contacts : List ContactPoint) : ℝ :=
  let cx := (contacts.map fun c => c.position.x).sum / (contacts.length : ℝ)
  (contacts.map fun c => (c.position.x - cx) ^ 2).sum

/-- Second moment `sumZ2` of the contact positions about their centroid's
z coordinate. -/
noncomputable def sumZ2 (contacts : List ContactPoint) : ℝ :=
  let cz := (contacts.map fun c => c.position.z).sum / (contacts.length : ℝ)
  (contacts.map fun c => (c.position.z - cz) ^ 2).sum

/-- Mixed second moment `sumXZ` of the contact positions about their
centroid. -/
noncomputable def sumXZ (contacts : List ContactPoint) : ℝ :=
  let cx := (contacts.map fun c => c.position.x).sum / (contacts.length : ℝ)
  let cz := (contacts.map fun c => c.position.z).sum / (contacts.length : ℝ)
  (contacts.map fun c => (c.position.x - cx) * (c.position.z - cz)).sum

/-- `LeadTipGeometry.getContactShape`.  Centroid and total area over all
contacts; with more than one contact the second moments decide the shape
through `ratio = Math.sqrt(sumX2 / sumZ2)` (which can be `Infinity` or
`NaN`, tracked by `JSNum`), and the orientation is
`Math.atan2(sumXZ, sumX2 - sumZ2) * 0.5`. -/
noncomputable def getContactShape (contacts : List ContactPoint) :
    ContactFootprint :=
  if contacts.length = 0 then
    { center := ⟨0, 0, 0⟩, area := 0, shape := .point, orientation := 0 }
  else
    let n : ℝ := (contacts.length : ℝ)
    let center : Vec3 :=
      ⟨(contacts.map fun c => c.position.x).sum / n,
       (contacts.map fun c => c.position.y).sum / n,
       (contacts.map fun c => c.position.z).sum / n⟩
    let totalArea := (contacts.map fun c => c.area).sum
    if 1 < contacts.length then
      let ratio := jsSqrt (jsDiv (sumX2 contacts) (sumZ2 contacts))
      if ratio.gtConst 2 ∨ ratio.ltConst 0.5 then
        { center := center, area := totalArea, shape := .line
          orientation := jsAtan2 (sumXZ contacts) (sumX2 contacts - sumZ2 contacts) * 0.5 }
      else if 3 < contacts.length then
        { center := center, area := totalArea, shape := .oval
          orientation := jsAtan2 (sumXZ contacts) (sumX2 contacts - sumZ2 contacts) * 0.5 }
      else
        { center := center, area := totalArea, shape := .point, orientation := 0 }
    else
      { center := center, area := totalArea, shape := .point, orientation := 0 }

end LeadTipGeometry

namespace ArtPhysicsEngine

/-- `ArtPhysicsEngine.calculatePressureResponse` from `Timeline.tsx`.
The source draws `Math.random()` once; `rand` is that draw, made an
explicit argument of the embedding. -/
noncomputable def calculatePressureResponse (rawPressure sensitivity rand : ℝ) : ℝ :=
  let curve := rawPressure ^ (1 / sensitivity)
  let organic := curve + (rand - 0.5) * 0.02
  max 0.01 (min 1.0 organic)

end ArtPhysicsEngine

namespace DrawingStrokeSystem

/-- `DrawingStroke` from `ArtCanvas3D.tsx`. -/
structure DrawingStroke where
  id : String
  points : List Vec3
  pressure : ℝ
  toolType : String
  color : String
  timestamp : ℕ
  width : ℝ
  opacity : ℝ

/-- The state held by `useDrawingStrokeSystem`: the committed strokes,
the in-progress stroke, and the `lastPoint` / `lastTimestamp` refs. -/
structure StrokeSystemState where
  strokes : List DrawingStroke
  currentStroke : Option DrawingStroke
  lastPoint : Option Vec3
  lastTimestamp : ℕ

/-- `getBaseWidth` from `ArtCanvas3D.tsx`. -/
noncomputable def getBaseWidth (toolType : String) : ℝ :=
  if toolType = "pencil" then 1.5
  else if toolType = "mechanicalPencil" then 0.8
  else if toolType = "pen" then 1.2
  else if toolType = "brush" then 3.0
  else if toolType = "crayon" then 2.5
  else 1.5

/-- `calculateWidth` from `ArtCanvas3D.tsx`. -/
noncomputable def calculateWidth (pressure : ℝ) (toolType : String) : ℝ :=
  let baseWidth := getBaseWidth toolType
  if toolType = "pencil" ∨ toolType = "mechanicalPencil" then baseWidth
  else if toolType = "brush" then baseWidth * (0.5 + pressure * 1.5)
  else if toolType = "pen" then baseWidth * (0.8 + pressure * 0.4)
  else if toolType = "crayon" then baseWidth * (0.7 + pressure * 0.8)
  else baseWidth

/-- `calculateOpacity` from `ArtCanvas3D.tsx`. -/
noncomputable def calculateOpacity (pressure : ℝ) (toolType : String) : ℝ :=
  if toolType = "pencil" ∨ toolType = "mechanicalPencil" then
    min 1 (0.3 + pressure * 0.7)
  else if toolType = "brush" then min 1 (0.5 + pressure * 0.5)
  else if toolType = "pen" then min 1 (0.7 + pressure * 0.3)
  else if toolType = "crayon" then min 1 (0.4 + pressure * 0.6)
  else min 1 (0.3 + pressure * 0.7)

/-- `startStroke`: a new in-progress stroke holding the one start point.
`id` (built in the source from `Date.now()` and `Math.random()`) and the
timestamp `now` are explicit inputs of the embedding. -/
noncomputable def startStroke (position : Vec3) (pressure : ℝ)
    (toolType color id : String) (now : ℕ) (s : StrokeSystemState) :
    StrokeSystemState :=
  let newStroke : DrawingStroke :=
    { id := id, points := [position], pressure := pressure
      toolType := toolType, color := color, timestamp := now
      width := calculateWidth pressure toolType
      opacity := calculateOpacity pressure toolType }
  { s with currentStroke := some newStroke, lastPoint := some position
           lastTimestamp := now }

/-- `addPointToStroke`: a no-op without an in-progress stroke; otherwise
appends the candidate point (and refreshes width/opacity from the current
pressure) only when `lastPoint` is unset or farther than `0.003` from the
candidate.  (The `velocity` the source computes is never used.) -/
noncomputable def addPointToStroke (position : Vec3) (pressure : ℝ) (now : ℕ)
    (s : StrokeSystemState) : StrokeSystemState :=
  match s.currentStroke with
  | none => s
  | some cur =>
    let farEnough : Prop :=
      match s.lastPoint with
      | none => True
      | some q => 0.003 < q.distanceTo position
    if farEnough then
      { s with
          currentStroke := some
            { cur with points := cur.points ++ [position]
                       width := calculateWidth pressure cur.toolType
                       opacity := calculateOpacity pressure cur.toolType }
          lastPoint := some position
          lastTimestamp := now }
    else s

/-- `endStroke`: commit the in-progress stroke only when it has more than
one point; always clear the in-progress stroke and the refs. -/
def endStroke (s : StrokeSystemState) : StrokeSystemState :=
  let strokes :=
    match s.currentStroke with
    | some cur => if 1 < cur.points.length then s.strokes ++ [cur] else s.strokes
    | none => s.strokes
  { strokes := strokes, currentStroke := none, lastPoint := none
    lastTimestamp := 0 }

end DrawingStrokeSystem

namespace CoordinateSmoothingEngine

/-- `SmoothPoint` from `ToolPanel.tsx`; `position` is a 2D drawing
coordinate whose `.y` holds the world z. -/
structure SmoothPoint where
  position : Vec2
  pressure : ℝ
  surfaceHeight : ℝ
  friction : ℝ

/-- The loop of `applySmoothingFilter` accumulating `f(history[i]) * 2^i`
from index `i` upward (oldest entry first). -/
noncomputable def weightedSum (f : SmoothPoint → ℝ) :
    List SmoothPoint → ℕ → ℝ
  | [], _ => 0
  | q :: rest, i => f q * 2 ^ i + weightedSum f rest (i + 1)

/-- `CoordinateSmoothingEngine.applySmoothingFilter`: push the raw sample,
evict the oldest entry past capacity 10, return the raw sample while the
history holds fewer than 3 entries, and otherwise the `2^i`-weighted
average over x, z, pressure and friction — the surface height always
taken from the current raw sample.  Returns the updated history together
with the output sample. -/
noncomputable def applySmoothingFilter (history : List SmoothPoint)
    (point : SmoothPoint) : List SmoothPoint × SmoothPoint :=
  let h1 := history ++ [point]
  let h2 := if 10 < h1.length then h1.tail else h1
  if h2.length < 3 then (h2, point)
  else
    let totalWeight := weightedSum (fun _ => 1) h2 0
    let smoothedX := weightedSum (fun q => q.position.x) h2 0
    let smoothedZ := weightedSum (fun q => q.position.y) h2 0
    let smoothedPressure := weightedSum (fun q => q.pressure) h2 0
    let smoothedFriction := weightedSum (fun q => q.friction) h2 0
    (h2,
     { position := ⟨smoothedX / totalWeight, smoothedZ / totalWeight⟩
       pressure := smoothedPressure / totalWeight
       surfaceHeight := point.surfaceHeight
       friction := smoothedFriction / totalWeight })

/-- Feeding the same raw sample `n` times into an initially empty
history, returning the history and the last output (the raw sample
itself when `n = 0`). -/
noncomputable def feedConstant (p : SmoothPoint) : ℕ → List SmoothPoint × SmoothPoint
  | 0 => ([], p)
  | n + 1 => applySmoothingFilter (feedConstant p n).1 p

end CoordinateSmoothingEngine

/-!
Theorems.  Each claim's theorem carries the claim id in its doc comment;
helper lemmas and concrete helper values precede them.
-/

namespace LeadTipGeometry

/-- C7: generating the tip geometry with radius 0.02, height 0.1 and 16
segments yields exactly 65 vertices — the apex (hardness 0.7), a base
ring of 16 (hardness 0.9), and 3 intermediate rings of 16 each
(hardness 0.8) — all with wear 0. -/
theorem generateInitialGeometry_spec :
    (generateInitialGeometry 0.02 0.1 16).length = 65 ∧
    (generateInitialGeometry 0.02 0.1 16).map (fun v => v.wear) =
      List.replicate 65 0 ∧
    (generateInitialGeometry 0.02 0.1 16).map (fun v => v.hardness) =
      0.7 :: (List.replicate 16 0.9 ++ List.replicate 48 0.8) := by
  refine ⟨?_, ?_, ?_⟩ <;> rfl

/-- C4: `checkCollisionWithSurface` returns one contact (built by
`contactFor`, whose pressure field is `max 0 ((surfaceY - worldY) * 100)`)
for exactly the vertices whose world-space y is at or below
`surfaceY + 0.001`; every returned pressure is non-negative; and when no
vertex satisfies the condition the result is the empty list. -/
theorem checkCollisionWithSurface_spec (vs : List LeadVertex) (surfaceY : ℝ)
    (m : Mat4) :
    checkCollisionWithSurface vs surfaceY m =
      (vs.filter fun v =>
        decide ((v.position.applyMatrix4 m).y ≤ surfaceY + 0.001)).map
        (contactFor surfaceY m)
    ∧ (∀ c ∈ checkCollisionWithSurface vs surfaceY m, 0 ≤ c.pressure)
    ∧ ((∀ v ∈ vs, ¬ (v.position.applyMatrix4 m).y ≤ surfaceY + 0.001) →
        checkCollisionWithSurface vs surfaceY m = []) := by
  have hA : checkCollisionWithSurface vs surfaceY m =
      (vs.filter fun v =>
        decide ((v.position.applyMatrix4 m).y ≤ surfaceY + 0.001)).map
        (contactFor surfaceY m) := by
    induction vs with
    | nil => rfl
    | cons v rest ih =>
      by_cases h : (v.position.applyMatrix4 m).y ≤ surfaceY + 0.001
      · simp [checkCollisionWithSurface, List.filter_cons, h] at ih ⊢
        exact ih
      · simp [checkCollisionWithSurface, List.filter_cons, h] at ih ⊢
        exact ih
  refine ⟨hA, ?_, ?_⟩
  · intro c hc
    rw [hA] at hc
    rcases List.mem_map.1 hc with ⟨v, _, rfl⟩
    exact le_max_left _ _
  · intro hnone
    rw [hA]
    have : (vs.filter fun v =>
        decide ((v.position.applyMatrix4 m).y ≤ surfaceY + 0.001)) = [] := by
      simp only [List.filter_eq_nil_iff, decide_eq_true_eq]
      exact hnone
    rw [this]
    rfl

/-- A fresh vertex at the origin. -/
def collisionVertex : LeadVertex :=
  { position := ⟨0, 0, 0⟩, originalPosition := ⟨0, 0, 0⟩, wear := 0
    hardness := 0.7 }

/-- Witness for C4: with the identity transform, a vertex at the origin
only yields non-negative pressures against surface height 1, and yields
no contact at all against surface height −1. -/
theorem checkCollisionWithSurface_spec_witness :
    (∀ c ∈ checkCollisionWithSurface [collisionVertex] 1 Mat4.identity,
      0 ≤ c.pressure)
    ∧ checkCollisionWithSurface [collisionVertex] (-1) Mat4.identity = [] := by
  refine ⟨(checkCollisionWithSurface_spec [collisionVertex] 1 Mat4.identity).2.1,
    (checkCollisionWithSurface_spec [collisionVertex] (-1) Mat4.identity).2.2 ?_⟩
  intro v hv
  simp only [List.mem_singleton] at hv
  subst hv
  simp [collisionVertex, Vec3.applyMatrix4, Mat4.identity]
  norm_num

/-- Per-vertex effect of one wear pass: hardness is untouched, and when
the vertex starts with a positive hardness and wear at most 1 the wear
does not decrease and stays at most 1. -/
def WearStep (v w : LeadVertex) : Prop :=
  w.hardness = v.hardness
  ∧ (0 < v.hardness → v.wear ≤ 1 → v.wear ≤ w.wear ∧ w.wear ≤ 1)

theorem wearStep_refl (v : LeadVertex) : WearStep v v :=
  ⟨rfl, fun _ hle => ⟨le_refl _, hle⟩⟩

theorem wearStep_trans {a b c : LeadVertex} (h1 : WearStep a b)
    (h2 : WearStep b c) : WearStep a c := by
  refine ⟨h2.1.trans h1.1, fun hpos hle => ?_⟩
  obtain ⟨hw1, hw2⟩ := h1.2 hpos hle
  obtain ⟨hw3, hw4⟩ := h2.2 (h1.1 ▸ hpos) hw2
  exact ⟨hw1.trans hw3, hw4⟩

theorem forall₂_wearStep_refl (l : List LeadVertex) :
    List.Forall₂ WearStep l l := by
  induction l with
  | nil => exact .nil
  | cons v rest ih => exact .cons (wearStep_refl v) ih

theorem forall₂_wearStep_trans {l1 l2 l3 : List LeadVertex}
    (h12 : List.Forall₂ WearStep l1 l2) (h23 : List.Forall₂ WearStep l2 l3) :
    List.Forall₂ WearStep l1 l3 := by
  induction h12 generalizing l3 with
  | nil => cases h23; exact .nil
  | cons hab _ ih =>
    cases h23 with
    | cons hbc htail => exact .cons (wearStep_trans hab hbc) (ih htail)

theorem applyWearContact_wearStep (m : Mat4) (wearRate : ℝ) (rng : ℕ → ℝ)
    (c : ContactPoint) (hp : 0 ≤ c.pressure) (hr : 0 ≤ wearRate) :
    ∀ (vs : List LeadVertex) (k : ℕ),
      List.Forall₂ WearStep vs (applyWearContact m wearRate rng c vs k).1 := by
  intro vs
  induction vs with
  | nil => intro k; exact .nil
  | cons v rest ih =>
    intro k
    dsimp only [applyWearContact]
    split
    · rename_i hd
      refine List.Forall₂.cons ⟨rfl, fun hpos hle => ?_⟩ (ih (k + 2))
      have hdist0 : 0 ≤ (v.position.applyMatrix4 m).distanceTo c.position :=
        Real.sqrt_nonneg _
      have hinfl : 0 ≤ 1 - (v.position.applyMatrix4 m).distanceTo c.position / 0.008 := by
        have := (div_lt_one (by norm_num : (0 : ℝ) < 0.008)).2 hd
        linarith
      have hpf : 0 ≤ c.pressure ^ (1.2 : ℝ) := Real.rpow_nonneg hp _
      have hhf : (0 : ℝ) ≤ 1 / v.hardness ^ (0.8 : ℝ) := by
        have := Real.rpow_pos_of_pos hpos 0.8
        positivity
      have hamt : 0 ≤ c.pressure ^ (1.2 : ℝ) * wearRate
          * (1 / v.hardness ^ (0.8 : ℝ))
          * (1 - (v.position.applyMatrix4 m).distanceTo c.position / 0.008)
          * 0.1 := by
        have h1 := mul_nonneg (mul_nonneg (mul_nonneg hpf hr) hhf) hinfl
        nlinarith
      exact ⟨le_min hle (le_add_of_nonneg_right hamt), min_le_left _ _⟩
    · exact List.Forall₂.cons (wearStep_refl v) (ih k)

theorem applyWear_forall₂ (contacts : List ContactPoint) (m : Mat4)
    (wearRate : ℝ) (rng : ℕ → ℝ)
    (hc : ∀ c ∈ contacts, 0 ≤ c.pressure) (hr : 0 ≤ wearRate) :
    ∀ (vs : List LeadVertex) (k : ℕ),
      List.Forall₂ WearStep vs
        (contacts.foldl
          (fun s c => applyWearContact m wearRate rng c s.1 s.2) (vs, k)).1 := by
  induction contacts with
  | nil => intro vs k; exact forall₂_wearStep_refl vs
  | cons c rest ih =>
    intro vs k
    rw [List.foldl_cons]
    exact forall₂_wearStep_trans
      (applyWearContact_wearStep m wearRate rng c (hc c (by simp)) hr vs k)
      (ih (fun d hd => hc d (by simp [hd])) _ _)

/-- C1: `applyWear` with non-negative contact pressures and a
non-negative wear rate never decreases any vertex's wear, and leaves
every wear at most 1 (given the data-model invariants: positive hardness
and wear at most 1).  In this embedding `applyWear` is the only operation
that touches vertex state at all — `checkCollisionWithSurface` and
`getContactShape` read contacts and return fresh values — so no other
core operation can decrease wear. -/
theorem applyWear_wear_monotone (contacts : List ContactPoint) (m : Mat4)
    (wearRate : ℝ) (rng : ℕ → ℝ) (vs : List LeadVertex)
    (hc : ∀ c ∈ contacts, 0 ≤ c.pressure) (hr : 0 ≤ wearRate)
    (hv : ∀ v ∈ vs, 0 < v.hardness ∧ v.wear ≤ 1) :
    List.Forall₂ (fun v w => v.wear ≤ w.wear ∧ w.wear ≤ 1) vs
      (applyWear contacts m wearRate rng vs) := by
  have h := applyWear_forall₂ contacts m wearRate rng hc hr vs 0
  have heq : applyWear contacts m wearRate rng vs
      = (contacts.foldl
          (fun s c => applyWearContact m wearRate rng c s.1 s.2) (vs, 0)).1 := rfl
  rw [heq]
  clear heq
  revert hv
  generalize (contacts.foldl
      (fun s c => applyWearContact m wearRate rng c s.1 s.2) (vs, 0)).1 = out at h ⊢
  induction h with
  | nil => intro _; exact .nil
  | cons hstep _ ih =>
    intro hv
    refine .cons (hstep.2 (hv _ (by simp)).1 (hv _ (by simp)).2) ?_
    exact ih (fun v hv' => hv v (by simp [hv']))

/-- A zero-pressure contact at the origin. -/
def wearContact : ContactPoint :=
  { position := ⟨0, 0, 0⟩, normal := ⟨0, 1, 0⟩, area := 0.000001, pressure := 0 }

/-- A fresh vertex at the origin (for the wear witness). -/
def wearVertex : LeadVertex :=
  { position := ⟨0, 0, 0⟩, originalPosition := ⟨0, 0, 0⟩, wear := 0
    hardness := 0.7 }

/-- Witness for C1 at a concrete contact, vertex, transform and random
stream. -/
theorem applyWear_wear_monotone_witness :
    List.Forall₂ (fun v w => v.wear ≤ w.wear ∧ w.wear ≤ 1) [wearVertex]
      (applyWear [wearContact] Mat4.identity 0.001 (fun _ => 0)
        [wearVertex]) :=
  applyWear_wear_monotone [wearContact] Mat4.identity 0.001 (fun _ => 0)
    [wearVertex]
    (by
      intro c hc
      simp only [List.mem_singleton] at hc
      subst hc
      norm_num [wearContact])
    (by norm_num)
    (by
      intro v hv
      simp only [List.mem_singleton] at hv
      subst hv
      norm_num [wearVertex])

theorem sum_sq_zero {l : List ℝ} (h : (l.map fun x => x ^ 2).sum = 0) :
    ∀ x ∈ l, x = 0 := by
  induction l with
  | nil => simp
  | cons a rest ih =>
    simp only [List.map_cons, List.sum_cons] at h
    have hrest : 0 ≤ (rest.map fun x => x ^ 2).sum :=
      List.sum_nonneg (by
        intro x hx
        rcases List.mem_map.1 hx with ⟨y, _, rfl⟩
        positivity)
    have ha : a ^ 2 = 0 := by nlinarith [sq_nonneg a]
    have ha0 : a = 0 := pow_eq_zero_iff (n := 2) (by norm_num) |>.1 ha
    intro x hx
    rcases List.mem_cons.1 hx with rfl | hx'
    · exact ha0
    · exact ih (by nlinarith) x hx'

/-- C3: with more than one contact, `sumZ2 = 0` and `sumX2 > 0` the
shape ratio is `sqrt(positive / 0) = Infinity`, so `getContactShape`
classifies `line`; all positions then share the centroid's z, so
`sumXZ = 0` and the orientation is `atan2(0, sumX2) * 0.5 = 0`.  No
field of the returned footprint is `NaN`: the only subterm that can be
non-finite is the ratio, which the `line` comparison absorbs. -/
theorem getContactShape_zero_szz (contacts : List ContactPoint)
    (hlen : 1 < contacts.length) (hz : sumZ2 contacts = 0)
    (hx : 0 < sumX2 contacts) :
    (getContactShape contacts).shape = .line
    ∧ (getContactShape contacts).orientation = 0 := by
  have hxz : sumXZ contacts = 0 := by
    have hz' := hz
    simp only [sumZ2] at hz'
    have hzall := sum_sq_zero (l := contacts.map fun c =>
      c.position.z - (contacts.map fun c => c.position.z).sum
        / (contacts.length : ℝ)) (by rw [List.map_map]; exact hz')
    simp only [sumXZ]
    apply List.sum_eq_zero
    intro y hy
    rcases List.mem_map.1 hy with ⟨c, hc, rfl⟩
    rw [hzall _ (List.mem_map_of_mem _ hc), mul_zero]
  have hcond : (jsSqrt (jsDiv (sumX2 contacts) (sumZ2 contacts))).gtConst 2
      ∨ (jsSqrt (jsDiv (sumX2 contacts) (sumZ2 contacts))).ltConst 0.5 := by
    left
    rw [hz]
    simp only [jsDiv, if_pos rfl, if_neg hx.ne', if_pos hx]
    exact trivial
  have hshape : getContactShape contacts =
      { center := ⟨(contacts.map fun c => c.position.x).sum / (contacts.length : ℝ),
          (contacts.map fun c => c.position.y).sum / (contacts.length : ℝ),
          (contacts.map fun c => c.position.z).sum / (contacts.length : ℝ)⟩
        area := (contacts.map fun c => c.area).sum
        shape := .line
        orientation := jsAtan2 (sumXZ contacts)
          (sumX2 contacts - sumZ2 contacts) * 0.5 } := by
    dsimp only [getContactShape]
    rw [if_neg (by omega), if_pos hlen, if_pos hcond]
  rw [hshape]
  refine ⟨rfl, ?_⟩
  rw [hxz, hz, sub_zero]
  have : jsAtan2 0 (sumX2 contacts) = 0 := by
    dsimp only [jsAtan2]
    rw [if_neg (by
      rintro ⟨h1, -⟩
      exact hx.ne' h1), if_pos hx, zero_div, Real.arctan_zero]
  rw [this, zero_mul]

/-- A unit-pressure contact on the x axis. -/
def lineContact (x : ℝ) : ContactPoint :=
  { position := ⟨x, 0, 0⟩, normal := ⟨0, 1, 0⟩, area := 0.000001, pressure := 1 }

/-- Four contacts colinear along X (the spec's concrete scenario). -/
def colinearContacts : List ContactPoint :=
  [lineContact (-3), lineContact (-1), lineContact 1, lineContact 3]

/-- Witness for C3 at the spec's scenario: 4 contacts colinear along X. -/
theorem getContactShape_zero_szz_witness :
    (getContactShape colinearContacts).shape = .line
    ∧ (getContactShape colinearContacts).orientation = 0 :=
  getContactShape_zero_szz colinearContacts
    (by norm_num [colinearContacts])
    (by norm_num [sumZ2, colinearContacts, lineContact])
    (by norm_num [sumX2, colinearContacts, lineContact])

theorem sum_map_eq_card_mul {α : Type} (l : List α) (g : α → ℝ) (v : ℝ)
    (hg : ∀ a ∈ l, g a = v) : (l.map g).sum = (l.length : ℝ) * v := by
  induction l with
  | nil => simp
  | cons a rest ih =>
    simp only [List.map_cons, List.sum_cons, List.length_cons]
    rw [hg a (by simp), ih (fun a ha => hg a (by simp [ha]))]
    push_cast
    ring

/-- C10: when all contact positions coincide every second moment is 0,
the ratio is `sqrt(0/0) = NaN` and both ratio comparisons fail, so with
more than 3 contacts the count branch classifies `oval` with orientation
`atan2(0, 0) * 0.5 = 0` and the centroid is the shared position (finite,
as is the area); with 2 or 3 such contacts the shape stays `point`. -/
theorem getContactShape_coincident (contacts : List ContactPoint) (p : Vec3)
    (hp : ∀ c ∈ contacts, c.position = p) :
    (3 < contacts.length →
      (getContactShape contacts).shape = .oval
      ∧ (getContactShape contacts).orientation = 0
      ∧ (getContactShape contacts).center = p
      ∧ (getContactShape contacts).area = (contacts.map fun c => c.area).sum)
    ∧ ((contacts.length = 2 ∨ contacts.length = 3) →
      (getContactShape contacts).shape = .point) := by
  have hfacts : 2 ≤ contacts.length →
      sumX2 contacts = 0 ∧ sumZ2 contacts = 0 ∧ sumXZ contacts = 0
      ∧ (contacts.map fun c => c.position.x).sum / (contacts.length : ℝ) = p.x
      ∧ (contacts.map fun c => c.position.y).sum / (contacts.length : ℝ) = p.y
      ∧ (contacts.map fun c => c.position.z).sum / (contacts.length : ℝ) = p.z := by
    intro h2
    have hn : (contacts.length : ℝ) ≠ 0 := by
      have : contacts.length ≠ 0 := by omega
      exact_mod_cast this
    have hsx : (contacts.map fun c => c.position.x).sum
        = (contacts.length : ℝ) * p.x :=
      sum_map_eq_card_mul contacts _ p.x (fun c hc => by rw [hp c hc])
    have hsy : (contacts.map fun c => c.position.y).sum
        = (contacts.length : ℝ) * p.y :=
      sum_map_eq_card_mul contacts _ p.y (fun c hc => by rw [hp c hc])
    have hsz : (contacts.map fun c => c.position.z).sum
        = (contacts.length : ℝ) * p.z :=
      sum_map_eq_card_mul contacts _ p.z (fun c hc => by rw [hp c hc])
    have hcx : (contacts.map fun c => c.position.x).sum / (contacts.length : ℝ)
        = p.x := by rw [hsx, mul_div_cancel_left₀ _ hn]
    have hcy : (contacts.map fun c => c.position.y).sum / (contacts.length : ℝ)
        = p.y := by rw [hsy, mul_div_cancel_left₀ _ hn]
    have hcz : (contacts.map fun c => c.position.z).sum / (contacts.length : ℝ)
        = p.z := by rw [hsz, mul_div_cancel_left₀ _ hn]
    refine ⟨?_, ?_, ?_, hcx, hcy, hcz⟩
    · simp only [sumX2]
      apply List.sum_eq_zero
      intro y hy
      rcases List.mem_map.1 hy with ⟨c, hc, rfl⟩
      rw [hcx, hp c hc, sub_self]
      ring
    · simp only [sumZ2]
      apply List.sum_eq_zero
      intro y hy
      rcases List.mem_map.1 hy with ⟨c, hc, rfl⟩
      rw [hcz, hp c hc, sub_self]
      ring
    · simp only [sumXZ]
      apply List.sum_eq_zero
      intro y hy
      rcases List.mem_map.1 hy with ⟨c, hc, rfl⟩
      rw [hcx, hcz, hp c hc, sub_self, zero_mul]
  constructor
  · intro h3
    obtain ⟨hx0, hz0, hxz0, hcx, hcy, hcz⟩ := hfacts (by omega)
    have hcond : ¬ ((jsSqrt (jsDiv (sumX2 contacts) (sumZ2 contacts))).gtConst 2
        ∨ (jsSqrt (jsDiv (sumX2 contacts) (sumZ2 contacts))).ltConst 0.5) := by
      rw [hx0, hz0]
      simp only [jsDiv, if_pos rfl, jsSqrt, JSNum.gtConst, JSNum.ltConst]
      simp
    have hshape : getContactShape contacts =
        { center := ⟨(contacts.map fun c => c.position.x).sum / (contacts.length : ℝ),
            (contacts.map fun c => c.position.y).sum / (contacts.length : ℝ),
            (contacts.map fun c => c.position.z).sum / (contacts.length : ℝ)⟩
          area := (contacts.map fun c => c.area).sum
          shape := .oval
          orientation := jsAtan2 (sumXZ contacts)
            (sumX2 contacts - sumZ2 contacts) * 0.5 } := by
      dsimp only [getContactShape]
      rw [if_neg (by omega), if_pos (by omega : 1 < contacts.length),
        if_neg hcond, if_pos h3]
    rw [hshape]
    refine ⟨rfl, ?_, ?_, rfl⟩
    · rw [hxz0, hx0, hz0, sub_zero]
      have : jsAtan2 0 0 = 0 := by
        dsimp only [jsAtan2]
        rw [if_pos ⟨rfl, rfl⟩]
      rw [this, zero_mul]
    · show Vec3.mk _ _ _ = p
      rw [hcx, hcy, hcz]
  · intro h23
    obtain ⟨hx0, hz0, -, -, -, -⟩ := hfacts (by omega)
    have hcond : ¬ ((jsSqrt (jsDiv (sumX2 contacts) (sumZ2 contacts))).gtConst 2
        ∨ (jsSqrt (jsDiv (sumX2 contacts) (sumZ2 contacts))).ltConst 0.5) := by
      rw [hx0, hz0]
      simp only [jsDiv, if_pos rfl, jsSqrt, JSNum.gtConst, JSNum.ltConst]
      simp
    have hshape : getContactShape contacts =
        { center := ⟨(contacts.map fun c => c.position.x).sum / (contacts.length : ℝ),
            (contacts.map fun c => c.position.y).sum / (contacts.length : ℝ),
            (contacts.map fun c => c.position.z).sum / (contacts.length : ℝ)⟩
          area := (contacts.map fun c => c.area).sum
          shape := .point
          orientation := 0 } := by
      dsimp only [getContactShape]
      rw [if_neg (by omega), if_pos (by omega : 1 < contacts.length),
        if_neg hcond, if_neg (by omega : ¬ 3 < contacts.length)]
    rw [hshape]

/-- One of several coincident contacts at position (1, 2, 3). -/
def coincidentContact : ContactPoint :=
  { position := ⟨1, 2, 3⟩, normal := ⟨0, 1, 0⟩, area := 0.5, pressure := 1 }

/-- Four coincident contacts. -/
def coincidentContacts : List ContactPoint :=
  [coincidentContact, coincidentContact, coincidentContact, coincidentContact]

/-- Two coincident contacts. -/
def coincidentPair : List ContactPoint :=
  [coincidentContact, coincidentContact]

/-- Witness for C10: four coincident contacts classify as `oval` with
orientation 0 and centroid (1, 2, 3); two classify as `point`. -/
theorem getContactShape_coincident_witness :
    (getContactShape coincidentContacts).shape = .oval
    ∧ (getContactShape coincidentContacts).orientation = 0
    ∧ (getContactShape coincidentContacts).center = ⟨1, 2, 3⟩
    ∧ (getContactShape coincidentContacts).area
        = (coincidentContacts.map fun c => c.area).sum
    ∧ (getContactShape coincidentPair).shape = .point := by
  have h4 := getContactShape_coincident coincidentContacts ⟨1, 2, 3⟩
    (by
      intro c hc
      simp only [coincidentContacts, List.mem_cons, List.not_mem_nil,
        or_false] at hc
      rcases hc with rfl | rfl | rfl | rfl <;> rfl)
  have h2 := getContactShape_coincident coincidentPair ⟨1, 2, 3⟩
    (by
      intro c hc
      simp only [coincidentPair, List.mem_cons, List.not_mem_nil,
        or_false] at hc
      rcases hc with rfl | rfl <;> rfl)
  obtain ⟨o1, o2, o3, o4⟩ := h4.1 (by norm_num [coincidentContacts])
  exact ⟨o1, o2, o3, o4, h2.2 (Or.inl (by norm_num [coincidentPair]))⟩

end LeadTipGeometry

namespace ArtPhysicsEngine

/-- C2: for raw pressure in [0, 1], sensitivity > 0 and a random draw in
[0, 1], `calculatePressureResponse` lies in [0.01, 1], equals the clamp
of `raw ^ (1 / sensitivity)` plus the jitter `(rand - 0.5) * 0.02`, and
that jitter has magnitude at most 0.01 (it ranges symmetrically over
[-0.01, 0.01] as the draw ranges over [0, 1]). -/
theorem calculatePressureResponse_bounds (raw sens rand : ℝ)
    (h0 : 0 ≤ raw) (h1 : raw ≤ 1) (hs : 0 < sens)
    (hr0 : 0 ≤ rand) (hr1 : rand ≤ 1) :
    0.01 ≤ calculatePressureResponse raw sens rand
    ∧ calculatePressureResponse raw sens rand ≤ 1
    ∧ calculatePressureResponse raw sens rand
        = max 0.01 (min 1 (raw ^ (1 / sens) + (rand - 0.5) * 0.02))
    ∧ |(rand - 0.5) * 0.02| ≤ 0.01 := by
  refine ⟨le_max_left _ _, ?_, ?_, ?_⟩
  · exact max_le (by norm_num) ((min_le_left _ _).trans (by norm_num))
  · norm_num [calculatePressureResponse]
  · rw [abs_le]
    constructor <;> nlinarith

/-- Witness for C2 at raw pressure 1, sensitivity 1, draw 1. -/
theorem calculatePressureResponse_bounds_witness :
    0.01 ≤ calculatePressureResponse 1 1 1
    ∧ calculatePressureResponse 1 1 1 ≤ 1
    ∧ calculatePressureResponse 1 1 1
        = max 0.01 (min 1 ((1 : ℝ) ^ ((1 : ℝ) / 1) + ((1 : ℝ) - 0.5) * 0.02))
    ∧ |((1 : ℝ) - 0.5) * 0.02| ≤ 0.01 :=
  calculatePressureResponse_bounds 1 1 1 (by norm_num) (by norm_num)
    (by norm_num) (by norm_num) (by norm_num)

/-- Counterexample for C9: the jitter comes from the hidden global
`Math.random()`, so two evaluations of `calculatePressureResponse` on the
same raw pressure and sensitivity differ whenever the underlying draws
differ — here raw 0.25, sensitivity 1, draws 0 and 1 give 0.24 ≠ 0.26. -/
theorem calculatePressureResponse_not_rand_free :
    calculatePressureResponse 0.25 1 0 ≠ calculatePressureResponse 0.25 1 1 := by
  norm_num [calculatePressureResponse, Real.rpow_one, min_def, max_def]

/-- C9 (amended): the response depends on the hidden global draw, but two
evaluations on the same raw pressure and sensitivity differ by at most
0.02 (the jitter span), and coincide exactly when the draw is the same. -/
theorem calculatePressureResponse_rand_lipschitz (raw sens r1 r2 : ℝ)
    (h1 : 0 ≤ r1) (h2 : r1 ≤ 1) (h3 : 0 ≤ r2) (h4 : r2 ≤ 1) :
    |calculatePressureResponse raw sens r1
      - calculatePressureResponse raw sens r2| ≤ 0.02
    ∧ (r1 = r2 →
        calculatePressureResponse raw sens r1
          = calculatePressureResponse raw sens r2) := by
  constructor
  · unfold calculatePressureResponse
    have step1 := abs_max_sub_max_le_max (0.01 : ℝ)
      (min 1.0 (raw ^ (1 / sens) + (r1 - 0.5) * 0.02)) 0.01
      (min 1.0 (raw ^ (1 / sens) + (r2 - 0.5) * 0.02))
    have step2 := abs_min_sub_min_le_max (1.0 : ℝ)
      (raw ^ (1 / sens) + (r1 - 0.5) * 0.02) 1.0
      (raw ^ (1 / sens) + (r2 - 0.5) * 0.02)
    have hd : |(raw ^ (1 / sens) + (r1 - 0.5) * 0.02)
        - (raw ^ (1 / sens) + (r2 - 0.5) * 0.02)| ≤ 0.02 := by
      have he : (raw ^ (1 / sens) + (r1 - 0.5) * 0.02)
          - (raw ^ (1 / sens) + (r2 - 0.5) * 0.02) = (r1 - r2) * 0.02 := by ring
      rw [he, abs_le]
      constructor <;> nlinarith
    simp only [sub_self, abs_zero] at step1 step2
    calc _ ≤ _ := step1
      _ ≤ _ := by
          apply max_le (by positivity)
          exact step2.trans (max_le (by positivity) hd)
  · intro h
    rw [h]

/-- Witness for the amended C9 at raw 0.25, sensitivity 1, draws 0 and 1. -/
theorem calculatePressureResponse_rand_lipschitz_witness :
    |calculatePressureResponse 0.25 1 0
      - calculatePressureResponse 0.25 1 1| ≤ 0.02
    ∧ ((0 : ℝ) = 1 →
        calculatePressureResponse 0.25 1 0 = calculatePressureResponse 0.25 1 1) :=
  calculatePressureResponse_rand_lipschitz 0.25 1 0 1 (by norm_num)
    (by norm_num) (by norm_num) (by norm_num)

end ArtPhysicsEngine

namespace DrawingStrokeSystem

/-- C5: `startStroke` immediately followed by `endStroke` leaves the
committed stroke collection unchanged (the stroke has 1 point); in
general `endStroke` always clears the in-progress stroke, commits it
exactly when it holds at least 2 points, and otherwise leaves the
collection unchanged. -/
theorem endStroke_commit_rule (position : Vec3) (pressure : ℝ)
    (toolType color id : String) (now : ℕ) (s t : StrokeSystemState) :
    (endStroke (startStroke position pressure toolType color id now s)).strokes
      = s.strokes
    ∧ (endStroke t).currentStroke = none
    ∧ (∀ cur, t.currentStroke = some cur → 2 ≤ cur.points.length →
        (endStroke t).strokes = t.strokes ++ [cur])
    ∧ ((∀ cur, t.currentStroke = some cur → cur.points.length < 2) →
        (endStroke t).strokes = t.strokes) := by
  refine ⟨?_, rfl, ?_, ?_⟩
  · simp [startStroke, endStroke]
  · intro cur hcur hlen
    simp only [endStroke, hcur]
    rw [if_pos (by omega)]
  · intro hshort
    cases hcur : t.currentStroke with
    | none => simp [endStroke, hcur]
    | some cur =>
      have := hshort cur hcur
      simp only [endStroke, hcur]
      rw [if_neg (by omega)]

/-- The stroke system's initial state. -/
def emptyStrokeState : StrokeSystemState :=
  { strokes := [], currentStroke := none, lastPoint := none, lastTimestamp := 0 }

/-- Witness for C5 starting from the empty state. -/
theorem endStroke_commit_rule_witness :
    (endStroke (startStroke ⟨0, 0, 0⟩ 0 "pencil" "#2F2F2F" "s1" 0
      emptyStrokeState)).strokes = emptyStrokeState.strokes
    ∧ (endStroke emptyStrokeState).currentStroke = none
    ∧ (∀ cur, emptyStrokeState.currentStroke = some cur →
        2 ≤ cur.points.length →
        (endStroke emptyStrokeState).strokes
          = emptyStrokeState.strokes ++ [cur])
    ∧ ((∀ cur, emptyStrokeState.currentStroke = some cur →
        cur.points.length < 2) →
        (endStroke emptyStrokeState).strokes = emptyStrokeState.strokes) :=
  endStroke_commit_rule ⟨0, 0, 0⟩ 0 "pencil" "#2F2F2F" "s1" 0
    emptyStrokeState emptyStrokeState

/-- The point count of the in-progress stroke (0 when none is active). -/
def strokePointCount (s : StrokeSystemState) : ℕ :=
  match s.currentStroke with
  | some cur => cur.points.length
  | none => 0

theorem addPointToStroke_noop (s : StrokeSystemState) (q pos : Vec3)
    (pressure : ℝ) (now : ℕ) (hq : s.lastPoint = some q)
    (hnear : q.distanceTo pos ≤ 0.003) :
    addPointToStroke pos pressure now s = s := by
  unfold addPointToStroke
  cases hcur : s.currentStroke with
  | none => rfl
  | some cur =>
    simp only [hq]
    rw [if_neg (by simpa using not_lt.2 hnear)]

/-- C6: with a last recorded point `q`, a sequence of `addPointToStroke`
calls whose candidates all lie within 0.003 of `q` leaves the whole
state — in particular the in-progress stroke's point count — unchanged;
and a single call can change the point count only when the candidate is
farther than 0.003 from `q`. -/
theorem addPointToStroke_min_spacing (s : StrokeSystemState) (q : Vec3)
    (hq : s.lastPoint = some q) (calls : List (Vec3 × ℝ × ℕ))
    (hnear : ∀ c ∈ calls, q.distanceTo c.1 ≤ 0.003) :
    calls.foldl (fun st c => addPointToStroke c.1 c.2.1 c.2.2 st) s = s
    ∧ strokePointCount
        (calls.foldl (fun st c => addPointToStroke c.1 c.2.1 c.2.2 st) s)
        = strokePointCount s
    ∧ ∀ (pos : Vec3) (pressure : ℝ) (now : ℕ),
        strokePointCount (addPointToStroke pos pressure now s)
          ≠ strokePointCount s
        → 0.003 < q.distanceTo pos := by
  have hfold : calls.foldl (fun st c => addPointToStroke c.1 c.2.1 c.2.2 st) s
      = s := by
    induction calls with
    | nil => rfl
    | cons c rest ih =>
      rw [List.foldl_cons,
        addPointToStroke_noop s q c.1 c.2.1 c.2.2 hq (hnear c (by simp)),
        ih (fun c hc => hnear c (by simp [hc]))]
  refine ⟨hfold, by rw [hfold], ?_⟩
  intro pos pressure now hne
  by_contra hle
  exact hne (by rw [addPointToStroke_noop s q pos pressure now hq (not_lt.1 hle)])

/-- A state with an in-progress one-point stroke and a last point at the
origin. -/
def spacingState : StrokeSystemState :=
  { strokes := []
    currentStroke := some
      { id := "s1", points := [⟨0, 0, 0⟩], pressure := 0, toolType := "pencil"
        color := "#2F2F2F", timestamp := 0, width := 1.5, opacity := 0.3 }
    lastPoint := some ⟨0, 0, 0⟩
    lastTimestamp := 0 }

/-- Witness for C6: one candidate at distance 0 from the last point. -/
theorem addPointToStroke_min_spacing_witness :
    [((⟨0, 0, 0⟩ : Vec3), (0 : ℝ), (0 : ℕ))].foldl
        (fun st c => addPointToStroke c.1 c.2.1 c.2.2 st) spacingState
      = spacingState
    ∧ strokePointCount
        ([((⟨0, 0, 0⟩ : Vec3), (0 : ℝ), (0 : ℕ))].foldl
          (fun st c => addPointToStroke c.1 c.2.1 c.2.2 st) spacingState)
        = strokePointCount spacingState
    ∧ ∀ (pos : Vec3) (pressure : ℝ) (now : ℕ),
        strokePointCount (addPointToStroke pos pressure now spacingState)
          ≠ strokePointCount spacingState
        → 0.003 < Vec3.distanceTo ⟨0, 0, 0⟩ pos :=
  addPointToStroke_min_spacing spacingState ⟨0, 0, 0⟩ rfl
    [((⟨0, 0, 0⟩ : Vec3), (0 : ℝ), (0 : ℕ))]
    (by
      intro c hc
      simp only [List.mem_singleton] at hc
      subst hc
      simp [Vec3.distanceTo]
      norm_num [Real.sqrt_zero])

end DrawingStrokeSystem

namespace CoordinateSmoothingEngine

theorem weightedSum_nonneg (h : List SmoothPoint) (i : ℕ) :
    0 ≤ weightedSum (fun _ => 1) h i := by
  induction h generalizing i with
  | nil => simp [weightedSum]
  | cons q rest ih =>
    have := ih (i + 1)
    have h2 : (0 : ℝ) < 2 ^ i := by positivity
    simp only [weightedSum]
    nlinarith

theorem weightedSum_one_pos (h : List SmoothPoint) (i : ℕ) (hne : h ≠ []) :
    0 < weightedSum (fun _ => 1) h i := by
  cases h with
  | nil => exact absurd rfl hne
  | cons q rest =>
    have := weightedSum_nonneg rest (i + 1)
    have h2 : (0 : ℝ) < 2 ^ i := by positivity
    simp only [weightedSum]
    nlinarith

theorem weightedSum_const (f : SmoothPoint → ℝ) (v : ℝ) (h : List SmoothPoint)
    (i : ℕ) (hall : ∀ q ∈ h, f q = v) :
    weightedSum f h i = v * weightedSum (fun _ => 1) h i := by
  induction h generalizing i with
  | nil => simp [weightedSum]
  | cons q rest ih =>
    simp only [weightedSum]
    rw [hall q (by simp), ih (i + 1) (fun q hq => hall q (by simp [hq]))]
    ring

theorem applySmoothingFilter_const (h : List SmoothPoint) (p : SmoothPoint)
    (hall : ∀ q ∈ h, q = p) :
    (applySmoothingFilter h p).2 = p
    ∧ ∀ q ∈ (applySmoothingFilter h p).1, q = p := by
  have hall2 : ∀ q ∈ (if 10 < (h ++ [p]).length then (h ++ [p]).tail
      else h ++ [p]), q = p := by
    intro q hq
    have hmem : q ∈ h ++ [p] := by
      by_cases hc : 10 < (h ++ [p]).length
      · rw [if_pos hc] at hq
        exact List.mem_of_mem_tail hq
      · rwa [if_neg hc] at hq
    rcases List.mem_append.1 hmem with hq' | hq'
    · exact hall q hq'
    · simpa using hq'
  unfold applySmoothingFilter
  by_cases hlen : (if 10 < (h ++ [p]).length then (h ++ [p]).tail
      else h ++ [p]).length < 3
  · rw [if_pos hlen]
    exact ⟨rfl, hall2⟩
  · rw [if_neg hlen]
    refine ⟨?_, hall2⟩
    have hne : (if 10 < (h ++ [p]).length then (h ++ [p]).tail
        else h ++ [p]) ≠ [] := by
      intro habs
      rw [habs] at hlen
      simp at hlen
    have hTne := (weightedSum_one_pos _ 0 hne).ne'
    have hx := weightedSum_const (fun q => q.position.x) p.position.x _ 0
      (fun q hq => by rw [hall2 q hq])
    have hz := weightedSum_const (fun q => q.position.y) p.position.y _ 0
      (fun q hq => by rw [hall2 q hq])
    have hpr := weightedSum_const (fun q => q.pressure) p.pressure _ 0
      (fun q hq => by rw [hall2 q hq])
    have hf := weightedSum_const (fun q => q.friction) p.friction _ 0
      (fun q hq => by rw [hall2 q hq])
    simp only [hx, hz, hpr, hf, mul_div_cancel_right₀ _ hTne]

theorem feedConstant_all (p : SmoothPoint) :
    ∀ n : ℕ, (∀ q ∈ (feedConstant p n).1, q = p) ∧ (feedConstant p n).2 = p
  | 0 => ⟨by simp [feedConstant], rfl⟩
  | n + 1 => by
    have ih := feedConstant_all p n
    exact ⟨(applySmoothingFilter_const _ p ih.1).2,
      (applySmoothingFilter_const _ p ih.1).1⟩

/-- C8: feeding the same raw sample 10 times into an initially empty
smoother yields exactly that sample back (the `2^i`-weighted average of
identical samples is the sample), so the x, z, pressure and friction
errors are all below 1e-6; and for any history and raw sample the
returned surface height is the current raw sample's surface height. -/
theorem smoothing_convergence (p : SmoothPoint) :
    (feedConstant p 10).2 = p
    ∧ |(feedConstant p 10).2.position.x - p.position.x| < 0.000001
    ∧ |(feedConstant p 10).2.position.y - p.position.y| < 0.000001
    ∧ |(feedConstant p 10).2.pressure - p.pressure| < 0.000001
    ∧ |(feedConstant p 10).2.friction - p.friction| < 0.000001
    ∧ ∀ (h : List SmoothPoint) (q : SmoothPoint),
        (applySmoothingFilter h q).2.surfaceHeight = q.surfaceHeight := by
  have h10 := (feedConstant_all p 10).2
  refine ⟨h10, ?_, ?_, ?_, ?_, ?_⟩
  · rw [h10, sub_self, abs_zero]; norm_num
  · rw [h10, sub_self, abs_zero]; norm_num
  · rw [h10, sub_self, abs_zero]; norm_num
  · rw [h10, sub_self, abs_zero]; norm_num
  · intro h q
    dsimp only [applySmoothingFilter]
    split <;> split <;> rfl

end CoordinateSmoothingEngine
